import Mathlib

/-!
Shallow embedding of `streamyjson/_json_parse.py` (class `StreamingJsonParser`
and the module-level function `parse_json`).

Modelling choices, following the source:
* Python strings are `List Char`; feeding a buffer processes its characters in
  order.
* The mutable tree of Python dicts is an arena (`heap : List Obj`) of objects
  indexed by integer id, exactly as the reference design note suggests for
  ownership-strict reimplementation.  `self.result` is the object at id `0`,
  created at construction and never replaced; `self.stack` holds ids of the
  currently open objects (most recent first; Python appends/pops at the end of
  the list, `self.stack[-1]` is our head).  Every Python dict mutation
  (`current_obj[key] = ...`, `+=`) becomes an update of the arena entry of the
  dict's id, so aliasing through stack references behaves as in Python.
* A Python dict preserves insertion order; assignment to an existing key
  replaces the value in place, assignment to a fresh key appends at the end
  (`objSet`).
* `consume` can raise `ValueError` in strict mode; it is embedded in
  `Except PyErr`.  The lenient character-processing semantics is the total
  function `stepL` / `consumeL`.
* `get()` materializes the arena into a `Json` tree starting at id 0
  (`matz`); the fuel `heap.length` suffices because a child id allocated by
  the parser is always strictly larger than its parent's id.
-/

/-- A JSON value of the supported subset: strings and objects (key order kept). -/
inductive Json where
  | JStr : List Char → Json
  | JObj : List (List Char × Json) → Json
deriving Repr

/-- A stored value inside an object: a string, or a reference (arena id) to a
nested object — the arena counterpart of a Python dict holding either a
`str` or a reference to another `dict`. -/
inductive Val where
  | VStr : List Char → Val
  | VObj : Nat → Val
deriving Repr, DecidableEq

/-- One Python dict: an insertion-ordered association list. -/
abbrev Obj := List (List Char × Val)

/-- Python dict lookup `o[k]` (as an `Option`). -/
def objGet : Obj → List Char → Option Val
  | [], _ => none
  | (k', v') :: t, k => if k' = k then some v' else objGet t k

/-- Python dict assignment `o[k] = v`: replace in place if the key exists
(keeping its position), otherwise append at the end. -/
def objSet : Obj → List Char → Val → Obj
  | [], k, v => [(k, v)]
  | (k', v') :: t, k, v => if k' = k then (k, v) :: t else (k', v') :: objSet t k v

/-- Python `current_obj[current_key] += char` for a string value.  The parser
only reaches this operation with the key bound to a string (state `IN_VALUE`
is entered just after `current_obj[current_key] = ""`); on the unreachable
non-string/missing-key case (where Python would raise) this is a no-op. -/
def objAppend (o : Obj) (k : List Char) (c : Char) : Obj :=
  match objGet o k with
  | some (Val.VStr s) => objSet o k (Val.VStr (s ++ [c]))
  | _ => o

/-- The enumerated parser states of `StreamingJsonParser` (Python integer
constants 0..6, with the same names). -/
inductive PState where
  | START
  | EXPECT_KEY_OR_END
  | IN_KEY
  | IN_VALUE
  | EXPECT_COLON
  | EXPECT_VALUE
  | EXPECT_COMMA_OR_END
deriving Repr, DecidableEq

open PState Val Json

/-- `WHITESPACE = ' \n\t\r'`. -/
def WHITESPACE : List Char := [' ', '\n', '\t', '\r']

/-- `EXPECTED_CHARS`: the dict mapping the five checking states to their
expected characters; `none` for the two states absent from the dict
(`IN_KEY`, `IN_VALUE`). -/
def EXPECTED_CHARS : PState → Option (List Char)
  | START => some ['\x7b']
  | EXPECT_KEY_OR_END => some ['\"', '\x7d']
  | EXPECT_COLON => some [':']
  | EXPECT_VALUE => some ['\"', '\x7b']
  | EXPECT_COMMA_OR_END => some [',', '\x7d']
  | _ => none

/-- The parser state: `result` is arena id 0 of `heap`; `stack` holds ids,
most recently pushed first. -/
structure StreamingJsonParser where
  heap : List Obj
  stack : List Nat
  state : PState
  current_key : List Char
  strict_mode : Bool
deriving Repr, DecidableEq

/-- `__init__`: empty result dict (arena `[[]]`, id 0), empty stack, state
`START`, empty current key. -/
def initParser (strict : Bool) : StreamingJsonParser :=
  { heap := [[]], stack := [], state := START, current_key := [], strict_mode := strict }

/-- `self.stack[-1] if self.stack else self.result`: the id of the dict the
parser currently writes into. -/
def targetId (p : StreamingJsonParser) : Nat := p.stack.headD 0

/-- `_process_char`: one character through the state machine (mutations
performed on the arena). -/
def processChar (p : StreamingJsonParser) (c : Char) : StreamingJsonParser :=
  let target := targetId p
  let cur := p.heap.getD target []
  match p.state with
  | START =>
      if c = '\x7b' then { p with state := EXPECT_KEY_OR_END } else p
  | EXPECT_KEY_OR_END =>
      if c = '\"' then { p with state := IN_KEY, current_key := [] }
      else if c = '\x7d' then
        { p with stack := p.stack.tail, state := EXPECT_COMMA_OR_END }
      else p
  | IN_KEY =>
      if c = '\"' then { p with state := EXPECT_COLON }
      else { p with current_key := p.current_key ++ [c] }
  | IN_VALUE =>
      if c = '\"' then { p with state := EXPECT_COMMA_OR_END }
      else { p with heap := p.heap.set target (objAppend cur p.current_key c) }
  | EXPECT_COLON =>
      if c = ':' then { p with state := EXPECT_VALUE } else p
  | EXPECT_VALUE =>
      if c = '\"' then
        { p with state := IN_VALUE,
                 heap := p.heap.set target (objSet cur p.current_key (VStr [])) }
      else if c = '\x7b' then
        { p with heap := (p.heap.set target (objSet cur p.current_key (VObj p.heap.length))) ++ [[]],
                 stack := p.heap.length :: p.stack,
                 state := EXPECT_KEY_OR_END }
      else p
  | EXPECT_COMMA_OR_END =>
      if c = ',' then { p with state := EXPECT_KEY_OR_END }
      else if c = '\x7d' then
        { p with stack := p.stack.tail, state := EXPECT_COMMA_OR_END }
      else p

/-- `' or '.join(expected)`. -/
def joinOr : List Char → List Char
  | [] => []
  | [c] => [c]
  | c :: t => c :: (" or ".toList ++ joinOr t)

/-- The `ValueError` message f-string: `Got {c} but expected {' or '.join(...)}`. -/
def errMsg (c : Char) (expected : List Char) : List Char :=
  "Got ".toList ++ [c] ++ " but expected ".toList ++ joinOr expected

/-- Python exceptions surfacing from `parse_json` / `consume`. -/
inductive PyErr where
  | valueError : List Char → PyErr
  | attributeError : PyErr
deriving Repr, DecidableEq

instance {ε α : Type} [DecidableEq ε] [DecidableEq α] : DecidableEq (Except ε α)
  | Except.ok a, Except.ok b =>
      if h : a = b then isTrue (by rw [h]) else isFalse (fun he => by cases he; exact h rfl)
  | Except.ok _, Except.error _ => isFalse (fun he => by cases he)
  | Except.error _, Except.ok _ => isFalse (fun he => by cases he)
  | Except.error e, Except.error f =>
      if h : e = f then isTrue (by rw [h]) else isFalse (fun he => by cases he; exact h rfl)

/-- One iteration of the `consume` loop body: skip whitespace outside
`IN_KEY`/`IN_VALUE`, apply the strict-mode check, then `_process_char`. -/
def consumeChar (p : StreamingJsonParser) (c : Char) : Except PyErr StreamingJsonParser :=
  if c ∈ WHITESPACE ∧ p.state ∉ [IN_KEY, IN_VALUE] then Except.ok p
  else if p.strict_mode then
    match EXPECTED_CHARS p.state with
    | some expected =>
        if c ∈ expected then Except.ok (processChar p c)
        else Except.error (PyErr.valueError (errMsg c expected))
    | none => Except.ok (processChar p c)
  else Except.ok (processChar p c)

/-- `consume(buffer)`: process the buffer's characters in order. -/
def consume (p : StreamingJsonParser) (buffer : List Char) : Except PyErr StreamingJsonParser :=
  buffer.foldlM consumeChar p

/-- The lenient (never-failing) character-processing step: identical to the
loop body of `consume` when `strict_mode` is false. -/
def stepL (p : StreamingJsonParser) (c : Char) : StreamingJsonParser :=
  if c ∈ WHITESPACE ∧ p.state ∉ [IN_KEY, IN_VALUE] then p else processChar p c

/-- Lenient `consume` as a total function. -/
def consumeL (p : StreamingJsonParser) (buffer : List Char) : StreamingJsonParser :=
  buffer.foldl stepL p

/-- Materialize the arena into a `Json` tree from object id `i` (fuel-indexed;
child ids are strictly larger than their parent's, so `heap.length` fuel is
enough for every parser-produced arena). -/
def matz (heap : List Obj) : Nat → Nat → Json
  | 0, _ => JObj []
  | fuel + 1, i =>
      JObj ((heap.getD i []).map (fun kv =>
        (kv.1, match kv.2 with
               | VStr s => JStr s
               | VObj j => matz heap fuel j)))

/-- `get()`: the current document, i.e. the tree rooted at `self.result`. -/
def getJson (p : StreamingJsonParser) : Json :=
  matz p.heap p.heap.length 0

/-- `get()` as an operation on the parser: returns the document and leaves
the parser untouched (the method body is a single `return self.result`). -/
def getOp (p : StreamingJsonParser) : Json × StreamingJsonParser :=
  (getJson p, p)

/-- `parse_json(s, strict_mode)`: builds a parser, chains
`.consume(s).get()`.  `consume` returns `None`, so in Python the chained
`.get()` is an attribute access on `None` and raises `AttributeError`
whenever `consume` itself did not raise first. -/
def parse_json (s : List Char) (strict : Bool) : Except PyErr Json :=
  match consume (initParser strict) s with
  | Except.error e => Except.error e
  | Except.ok _ => Except.error PyErr.attributeError

/-! ## Helper lemmas -/

theorem consume_nil (p : StreamingJsonParser) : consume p [] = Except.ok p := rfl

theorem consume_cons (p : StreamingJsonParser) (c : Char) (s : List Char) :
    consume p (c :: s) = consumeChar p c >>= fun q => consume q s := by
  simp [consume, List.foldlM_cons]

theorem consume_append (s t : List Char) (p : StreamingJsonParser) :
    consume p (s ++ t) = consume p s >>= fun q => consume q t := by
  induction s generalizing p with
  | nil => rw [List.nil_append]; rfl
  | cons c s ih =>
      rw [List.cons_append, consume_cons, consume_cons]
      cases h : consumeChar p c with
      | error e => rfl
      | ok q => exact ih q

theorem processChar_strict_mode (p : StreamingJsonParser) (c : Char) :
    (processChar p c).strict_mode = p.strict_mode := by
  obtain ⟨heap, stack, state, key, strict⟩ := p
  cases state <;> simp [processChar] <;> split_ifs <;> rfl

theorem stepL_strict_mode (p : StreamingJsonParser) (c : Char) :
    (stepL p c).strict_mode = p.strict_mode := by
  unfold stepL
  split_ifs with h
  · rfl
  · exact processChar_strict_mode p c

theorem consumeChar_lenient (p : StreamingJsonParser) (c : Char) (h : p.strict_mode = false) :
    consumeChar p c = Except.ok (stepL p c) := by
  unfold consumeChar stepL
  split_ifs with h1 h2
  · rfl
  · simp [h] at h2
  · rfl

theorem consume_ok_of_lenient (s : List Char) (p : StreamingJsonParser)
    (h : p.strict_mode = false) : consume p s = Except.ok (consumeL p s) := by
  induction s generalizing p with
  | nil => rfl
  | cons c s ih =>
      rw [consume_cons, consumeChar_lenient p c h]
      show consume (stepL p c) s = _
      rw [ih (stepL p c) (by rw [stepL_strict_mode, h])]
      rfl

/-! ## C1, C5, C7, C9, C10 -/

/-- C1: chunk-boundary invariance.  Feeding any list of chunks sequentially
(`foldlM consume`, i.e. `consume(c1); ...; consume(cn)`) to a fresh parser
produces the same outcome — the same final parser state, hence the same
`get()` result — as feeding the concatenated input in a single `consume`
call.  This is proved for every input (valid JSON or not), every split
(empty chunks and splits inside keys, strings or between tokens included),
and both modes. -/
theorem chunk_boundary_invariance (strict : Bool) (chunks : List (List Char)) :
    chunks.foldlM consume (initParser strict) = consume (initParser strict) chunks.flatten ∧
    (chunks.foldlM consume (initParser strict)).map getJson
      = (consume (initParser strict) chunks.flatten).map getJson := by
  have main : ∀ (cs : List (List Char)) (p : StreamingJsonParser),
      cs.foldlM consume p = consume p cs.flatten := by
    intro cs
    induction cs with
    | nil => intro p; rfl
    | cons ch cs ih =>
        intro p
        rw [List.flatten_cons, consume_append]
        rw [List.foldlM_cons]
        cases h : consume p ch with
        | error e => rfl
        | ok q => exact ih q
  refine ⟨main chunks (initParser strict), ?_⟩
  rw [main chunks (initParser strict)]

/-- C5: with `strict_mode = False` (the constructor default), `consume`
never raises on any input string: it always returns normally, leaving the
parser in the (total) lenient-processing state, from which `get()` serves
its best-effort result. -/
theorem lenient_consume_never_fails (p : StreamingJsonParser) (s : List Char)
    (h : p.strict_mode = false) :
    consume p s = Except.ok (consumeL p s) := consume_ok_of_lenient s p h

/-- Witness for C5 at a concrete garbage input. -/
theorem lenient_consume_never_fails_witness :
    consume (initParser false) "\x7d\x7d:,garbage\"\x7b".toList
      = Except.ok (consumeL (initParser false) "\x7d\x7d:,garbage\"\x7b".toList) :=
  lenient_consume_never_fails (initParser false) "\x7d\x7d:,garbage\"\x7b".toList rfl

/-- C7: `get()` always returns an object-shaped value — for every parser
state whatsoever (hence after any sequence of `consume` calls in either
mode), the materialized document is a `JObj`, and on a freshly constructed
parser it is the empty object. -/
theorem get_always_object (p : StreamingJsonParser) (strict : Bool) :
    (∃ entries, getJson p = Json.JObj entries) ∧ getJson (initParser strict) = Json.JObj [] := by
  constructor
  · unfold getJson
    cases h : p.heap.length with
    | zero => exact ⟨[], rfl⟩
    | succ n => exact ⟨_, rfl⟩
  · rfl

/-- C9: `get()` is an idempotent, side-effect-free query: it leaves every
component of the parser state unchanged, and repeated calls with no
intervening `consume` return equal results. -/
theorem get_idempotent_side_effect_free (p : StreamingJsonParser) :
    (getOp p).2 = p ∧ (getOp ((getOp p).2)).1 = (getOp p).1 := ⟨rfl, rfl⟩

/-- C10: the convenience function `parse_json` never returns a dictionary:
`consume` returns `None`, so the chained `.get()` raises `AttributeError`
unless `consume` raised first (strict mode); in lenient mode the outcome is
always exactly `AttributeError`. -/
theorem parse_json_always_raises (s : List Char) (strict : Bool) :
    (∃ e, parse_json s strict = Except.error e) ∧
    parse_json s false = Except.error PyErr.attributeError := by
  constructor
  · unfold parse_json
    cases consume (initParser strict) s with
    | error e => exact ⟨e, rfl⟩
    | ok q => exact ⟨PyErr.attributeError, rfl⟩
  · unfold parse_json
    rw [consume_ok_of_lenient s (initParser false) rfl]

/-! ## Object and arena lemmas -/

theorem objGet_objSet_self (o : Obj) (k : List Char) (v : Val) :
    objGet (objSet o k v) k = some v := by
  induction o with
  | nil => simp [objSet, objGet]
  | cons kv t ih =>
      obtain ⟨k', v'⟩ := kv
      by_cases h : k' = k <;> simp [objSet, objGet, h, ih]

theorem objSet_keys_of_get (o : Obj) (k : List Char) (v w : Val)
    (h : objGet o k = some v) : (objSet o k w).map Prod.fst = o.map Prod.fst := by
  induction o with
  | nil => simp [objGet] at h
  | cons kv t ih =>
      obtain ⟨k', v'⟩ := kv
      by_cases hk : k' = k
      · simp [objSet, hk]
      · simp [objGet, hk] at h
        simp [objSet, hk, ih h]

theorem objAppend_keys (o : Obj) (k : List Char) (c : Char) :
    (objAppend o k c).map Prod.fst = o.map Prod.fst := by
  unfold objAppend
  cases h : objGet o k with
  | none => rfl
  | some v =>
      cases v with
      | VStr s => exact objSet_keys_of_get o k (VStr s) (VStr (s ++ [c])) h
      | VObj i => rfl

theorem getD_set_self {α : Type} (l : List α) (i : Nat) (a d : α) (h : i < l.length) :
    (l.set i a).getD i d = a := by
  simp [List.getD_eq_getElem?_getD, List.getElem?_set_self, h]

theorem getD_out_of_range {α : Type} (l : List α) (i : Nat) (d : α) (h : l.length ≤ i) :
    l.getD i d = d := by
  simp [List.getD_eq_getElem?_getD, List.getElem?_eq_none h]

theorem getD_append_left {α : Type} (l l' : List α) (i : Nat) (d : α) (h : i < l.length) :
    (l ++ l').getD i d = l.getD i d := by
  simp [List.getD_eq_getElem?_getD, List.getElem?_append, h]

/-- The per-object key lists of the whole arena. -/
def heapKeys (h : List Obj) : List (List (List Char)) :=
  h.map (fun o => o.map Prod.fst)

theorem heapKeys_set (h : List Obj) (i : Nat) (o : Obj)
    (hk : o.map Prod.fst = (h.getD i []).map Prod.fst) :
    heapKeys (h.set i o) = heapKeys h := by
  induction h generalizing i with
  | nil => rfl
  | cons x t ih =>
      cases i with
      | zero =>
          rw [List.getD_cons_zero] at hk
          show (o.map Prod.fst) :: heapKeys t = (x.map Prod.fst) :: heapKeys t
          rw [hk]
      | succ j =>
          rw [List.getD_cons_succ] at hk
          show (x.map Prod.fst) :: heapKeys (t.set j o) = (x.map Prod.fst) :: heapKeys t
          rw [ih j hk]

/-- The write target of a step is either the root (id 0) or an id on the stack. -/
theorem targetId_zero_or_mem (p : StreamingJsonParser) :
    targetId p = 0 ∨ targetId p ∈ p.stack := by
  unfold targetId
  cases h : p.stack with
  | nil => exact Or.inl rfl
  | cons a t => exact Or.inr (by simp [List.headD])

/-! ## C2, C6, C8 -/

/-- C2: key atomicity.  (i) In every state other than `EXPECT_VALUE` and
`IN_VALUE` a processed character leaves the arena — hence `get()`'s result —
completely unchanged; in particular no key becomes visible while the key is
still being read (`IN_KEY`) or while the colon is awaited (`EXPECT_COLON`).
(ii) In `IN_VALUE` the key sets of every object are unchanged (only a string
value grows).  (iii) The step that processes the opening delimiter of a value
in `EXPECT_VALUE` is exactly the one that binds `current_key` in its parent:
after `"` the key is bound to the empty string (type known: string), after
`{` to a freshly allocated empty object (type known: object), and any other
character changes nothing. -/
theorem key_atomicity (p : StreamingJsonParser) (c : Char) :
    ((p.state ≠ EXPECT_VALUE ∧ p.state ≠ IN_VALUE) →
        (processChar p c).heap = p.heap ∧ getJson (processChar p c) = getJson p)
  ∧ (p.state = IN_VALUE → heapKeys (processChar p c).heap = heapKeys p.heap)
  ∧ (p.state = EXPECT_VALUE → targetId p < p.heap.length →
      ((c = '\"' →
          objGet ((processChar p c).heap.getD (targetId p) []) p.current_key = some (VStr [])
          ∧ (processChar p c).state = IN_VALUE)
     ∧ (c = '\x7b' →
          objGet ((processChar p c).heap.getD (targetId p) []) p.current_key
            = some (VObj p.heap.length)
          ∧ (processChar p c).state = EXPECT_KEY_OR_END)
     ∧ (c ≠ '\"' → c ≠ '\x7b' → processChar p c = p))) := by
  refine ⟨?_, ?_, ?_⟩
  · intro ⟨h1, h2⟩
    have hp : (processChar p c).heap = p.heap := by
      obtain ⟨heap, stack, state, key, strict⟩ := p
      cases state <;> simp_all [processChar] <;> split_ifs <;> rfl
    exact ⟨hp, by simp [getJson, hp]⟩
  · intro h
    obtain ⟨heap, stack, state, key, strict⟩ := p
    dsimp only at h
    subst h
    dsimp only [processChar]
    split_ifs with hc
    · rfl
    · exact heapKeys_set heap _ _ (objAppend_keys _ _ _)
  · intro h hlt
    obtain ⟨heap, stack, state, key, strict⟩ := p
    dsimp only at h
    subst h
    refine ⟨?_, ?_, ?_⟩
    · intro hc
      subst hc
      dsimp only [processChar]
      rw [if_pos rfl]
      constructor
      · rw [getD_set_self _ _ _ _ hlt, objGet_objSet_self]
      · rfl
    · intro hc
      subst hc
      dsimp only [processChar]
      rw [if_neg (show ¬('\x7b' = '\"') by decide), if_pos rfl]
      constructor
      · rw [getD_append_left _ _ _ _ (by simpa using hlt),
            getD_set_self _ _ _ _ hlt, objGet_objSet_self]
      · rfl
    · intro hc1 hc2
      dsimp only [processChar]
      rw [if_neg hc1, if_neg hc2]

/-- Witness for C2 at a parser in `EXPECT_VALUE`: processing the opening `"`
of the value binds the pending key to the empty string at once. -/
theorem key_atomicity_witness :
    objGet ((processChar
        { heap := [[]], stack := [], state := EXPECT_VALUE,
          current_key := "k".toList, strict_mode := false } '\"').heap.getD 0 [])
      "k".toList = some (VStr [])
    ∧ (processChar
        { heap := [[]], stack := [], state := EXPECT_VALUE,
          current_key := "k".toList, strict_mode := false } '\"').state = IN_VALUE :=
  ((key_atomicity
      { heap := [[]], stack := [], state := EXPECT_VALUE,
        current_key := "k".toList, strict_mode := false } '\"').2.2 rfl
    (by decide)).1 rfl

/-- C6: string incrementality.  In state `IN_VALUE`, a consumed character
other than the closing quote is appended to the string bound to
`current_key` in the current target object by that very step (the arena —
which `get()` materializes — is updated immediately, with no buffering),
and the parser stays in `IN_VALUE`. -/
theorem string_value_incremental_append (p : StreamingJsonParser) (c : Char) (s : List Char)
    (hst : p.state = IN_VALUE) (hc : c ≠ '\"')
    (hv : objGet (p.heap.getD (targetId p) []) p.current_key = some (VStr s)) :
    objGet ((processChar p c).heap.getD (targetId p) []) p.current_key
      = some (VStr (s ++ [c]))
    ∧ (processChar p c).state = IN_VALUE := by
  have hlt : targetId p < p.heap.length := by
    by_contra hge
    rw [getD_out_of_range _ _ _ (Nat.le_of_not_lt hge)] at hv
    simp [objGet] at hv
  obtain ⟨heap, stack, state, key, strict⟩ := p
  dsimp only at hst
  subst hst
  dsimp only [processChar] at hv hlt ⊢
  rw [if_neg hc]
  constructor
  · rw [getD_set_self _ _ _ _ hlt]
    unfold objAppend
    rw [hv, objGet_objSet_self]
  · rfl

/-- Witness for C6: a concrete `IN_VALUE` parser appending one character. -/
theorem string_value_incremental_append_witness :
    objGet ((processChar
        { heap := [[("k".toList, VStr "ab".toList)]], stack := [], state := IN_VALUE,
          current_key := "k".toList, strict_mode := false } 'c').heap.getD 0 [])
      "k".toList = some (VStr "abc".toList)
    ∧ (processChar
        { heap := [[("k".toList, VStr "ab".toList)]], stack := [], state := IN_VALUE,
          current_key := "k".toList, strict_mode := false } 'c').state = IN_VALUE :=
  string_value_incremental_append
    { heap := [[("k".toList, VStr "ab".toList)]], stack := [], state := IN_VALUE,
      current_key := "k".toList, strict_mode := false } 'c' "ab".toList
    rfl (by decide) (by decide)

/-- C8: whitespace handling.  For each of the four whitespace characters:
in every state other than `IN_KEY` and `IN_VALUE` the character is skipped
before dispatch — the parser is returned completely unchanged, with no
strict-mode error; in `IN_KEY` it is appended to the key accumulator as
literal content; in `IN_VALUE` it reaches `_process_char` as literal
content (appended to the current string value, the state staying
`IN_VALUE`), again without a strict-mode error. -/
theorem whitespace_skipped_outside_literals (p : StreamingJsonParser) (c : Char)
    (hw : c ∈ WHITESPACE) :
    ((p.state ≠ IN_KEY ∧ p.state ≠ IN_VALUE) → consumeChar p c = Except.ok p)
  ∧ (p.state = IN_KEY →
      consumeChar p c = Except.ok { p with current_key := p.current_key ++ [c] })
  ∧ (p.state = IN_VALUE →
      consumeChar p c = Except.ok (processChar p c) ∧ (processChar p c).state = IN_VALUE) := by
  have hq : c ≠ '\"' := by
    intro hc
    subst hc
    simp [WHITESPACE] at hw
  refine ⟨?_, ?_, ?_⟩
  · intro ⟨h1, h2⟩
    unfold consumeChar
    rw [if_pos ⟨hw, by simp [h1, h2]⟩]
  · intro h
    obtain ⟨heap, stack, state, key, strict⟩ := p
    dsimp only at h
    subst h
    have hpc : processChar
        { heap := heap, stack := stack, state := IN_KEY,
          current_key := key, strict_mode := strict } c
        = { heap := heap, stack := stack, state := IN_KEY,
            current_key := key ++ [c], strict_mode := strict } := by
      dsimp only [processChar]
      rw [if_neg hq]
    unfold consumeChar
    rw [if_neg (fun hand => hand.2 (List.mem_cons_self _ _))]
    dsimp only [EXPECTED_CHARS]
    split_ifs <;> rw [hpc]
  · intro h
    obtain ⟨heap, stack, state, key, strict⟩ := p
    dsimp only at h
    subst h
    constructor
    · unfold consumeChar
      rw [if_neg (fun hand => hand.2 (by simp))]
      dsimp only [EXPECTED_CHARS]
      split_ifs <;> rfl
    · dsimp only [processChar]
      rw [if_neg hq]

/-- Witness for C8: a newline in `EXPECT_COLON` is skipped even in strict
mode, and a space inside a key is kept as literal content. -/
theorem whitespace_skipped_outside_literals_witness :
    consumeChar
      { heap := [[]], stack := [], state := EXPECT_COLON,
        current_key := "k".toList, strict_mode := true } '\n'
      = Except.ok
      { heap := [[]], stack := [], state := EXPECT_COLON,
        current_key := "k".toList, strict_mode := true }
    ∧ consumeChar
      { heap := [[]], stack := [], state := IN_KEY,
        current_key := "k".toList, strict_mode := true } ' '
      = Except.ok
      { heap := [[]], stack := [], state := IN_KEY,
        current_key := "k".toList ++ [' '], strict_mode := true } :=
  ⟨(whitespace_skipped_outside_literals
      { heap := [[]], stack := [], state := EXPECT_COLON,
        current_key := "k".toList, strict_mode := true } '\n' (by decide)).1
      (by exact ⟨by decide, by decide⟩),
   (whitespace_skipped_outside_literals
      { heap := [[]], stack := [], state := IN_KEY,
        current_key := "k".toList, strict_mode := true } ' ' (by decide)).2.1 rfl⟩

/-! ## C3: structural closure -/

/-- A single lenient step never touches an object that is neither the root
(id 0) nor on the stack; it also never puts such an id back on the stack
(freshly pushed ids are new allocations), and the arena only grows. -/
theorem stepL_untouched (p : StreamingJsonParser) (c : Char) (i : Nat)
    (h0 : i ≠ 0) (hs : i ∉ p.stack) (hl : i < p.heap.length) :
    (stepL p c).heap[i]? = p.heap[i]? ∧ i ∉ (stepL p c).stack
      ∧ i < (stepL p c).heap.length := by
  have hti : targetId p ≠ i := by
    intro heq
    rcases targetId_zero_or_mem p with h | h
    · exact h0 (heq.symm.trans h)
    · exact hs (heq ▸ h)
  unfold stepL
  split_ifs with hws
  · exact ⟨rfl, hs, hl⟩
  · obtain ⟨heap, stack, state, key, strict⟩ := p
    cases state <;> dsimp only [processChar] <;> split_ifs <;>
      first
      | exact ⟨rfl, hs, hl⟩
      | exact ⟨rfl, fun hm => hs (List.mem_of_mem_tail hm), hl⟩
      | exact ⟨List.getElem?_set_ne hti, hs, by simpa using hl⟩
      | (refine ⟨?_, ?_, ?_⟩
         · rw [List.getElem?_append]
           rw [if_pos (by simpa using hl), List.getElem?_set_ne hti]
         · intro hm
           rcases List.mem_cons.mp hm with h | h
           · exact absurd h (Nat.ne_of_lt hl)
           · exact hs h
         · have hl' : i < heap.length := by simpa using hl
           simpa using Nat.lt_succ_of_lt hl')

/-- C3 (amended): structural closure holds for every non-root object.  If an
object id is not the root (id 0) and is not open (not on the stack) — in
particular whenever its closing `}` has been consumed and it was popped —
then no subsequent `consume` input ever changes that object again: its
committed keys and values are frozen.  The root object is the exception the
counterexample exhibits: after the root's own closing brace the machine sits
in `EXPECT_COMMA_OR_END` with an empty stack, and further input such as
`,"k":"v"` resumes writing into the root. -/
theorem closed_nonroot_object_frozen (p : StreamingJsonParser) (i : Nat) (s : List Char)
    (h0 : i ≠ 0) (hs : i ∉ p.stack) (hl : i < p.heap.length) :
    (consumeL p s).heap[i]? = p.heap[i]? := by
  induction s generalizing p with
  | nil => rfl
  | cons c s ih =>
      obtain ⟨hh, hstk, hlen⟩ := stepL_untouched p c i h0 hs hl
      calc (consumeL p (c :: s)).heap[i]? = (consumeL (stepL p c) s).heap[i]? := rfl
        _ = (stepL p c).heap[i]? := ih (stepL p c) hstk hlen
        _ = p.heap[i]? := hh

/-- Witness for amended C3: the nested object `{"x":"y"}` (arena id 1),
already closed, is untouched by further input that keeps writing into the
root. -/
theorem closed_nonroot_object_frozen_witness :
    (consumeL (consumeL (initParser false) "\x7b\"a\":\x7b\"x\":\"y\"\x7d,".toList)
        "\"b\":\"z\"".toList).heap[1]?
      = (consumeL (initParser false) "\x7b\"a\":\x7b\"x\":\"y\"\x7d,".toList).heap[1]? :=
  closed_nonroot_object_frozen
    (consumeL (initParser false) "\x7b\"a\":\x7b\"x\":\"y\"\x7d,".toList) 1
    "\"b\":\"z\"".toList (by decide) (by decide) (by decide)

/-- C3 as stated is false for the root object: after `{"a":"b"}` the root's
closing brace has been consumed (stack empty, key `a` committed to `"b"`),
yet the subsequent chunk `,"a":"x"` mutates the closed root, overwriting its
already-committed key `a` with `"x"` — both in the arena and in `get()`'s
materialized result. -/
theorem root_mutated_after_close_cex :
    (consumeL (initParser false) "\x7b\"a\":\"b\"\x7d".toList).stack = []
    ∧ (consumeL (initParser false) "\x7b\"a\":\"b\"\x7d".toList).heap.getD 0 []
        = [("a".toList, VStr "b".toList)]
    ∧ (consumeL (consumeL (initParser false) "\x7b\"a\":\"b\"\x7d".toList)
          ",\"a\":\"x\"".toList).heap.getD 0 []
        = [("a".toList, VStr "x".toList)]
    ∧ (consumeL (consumeL (initParser false) "\x7b\"a\":\"b\"\x7d".toList)
          ",\"a\":\"x\"".toList).heap
        ≠ (consumeL (initParser false) "\x7b\"a\":\"b\"\x7d".toList).heap
    ∧ getJson (consumeL (initParser false) "\x7b\"a\":\"b\"\x7d".toList)
        = JObj [("a".toList, JStr "b".toList)]
    ∧ getJson (consumeL (consumeL (initParser false) "\x7b\"a\":\"b\"\x7d".toList)
          ",\"a\":\"x\"".toList)
        = JObj [("a".toList, JStr "x".toList)] :=
  ⟨by decide, by decide, by decide, by decide, by rfl, by rfl⟩

/-! ## C4: strict-mode error reporting -/

/-- `startsWithL l pat`: `pat` occurs at the front of `l`. -/
def startsWithL : List Char → List Char → Bool
  | _, [] => true
  | [], _ :: _ => false
  | a :: as, b :: bs => a == b && startsWithL as bs

/-- `containsSub l pat`: `pat` occurs contiguously somewhere in `l`
(used to ask whether a name is reported inside an error message). -/
def containsSub : List Char → List Char → Bool
  | [], pat => startsWithL [] pat
  | c :: t, pat => startsWithL (c :: t) pat || containsSub t pat

theorem mem_joinOr (l : List Char) (e : Char) (h : e ∈ l) : e ∈ joinOr l := by
  induction l with
  | nil => simp at h
  | cons c t ih =>
      cases t with
      | nil => simpa [joinOr] using h
      | cons c' t' =>
          show e ∈ c :: (" or ".toList ++ joinOr (c' :: t'))
          rcases List.mem_cons.mp h with rfl | h'
          · exact List.mem_cons_self _ _
          · exact List.mem_cons_of_mem _ (List.mem_append_right _ (ih h'))

/-- C4 (amended): in strict mode, a non-whitespace character outside the
current state's expected set (for the five states that have one; `IN_KEY`
and `IN_VALUE` accept every character) makes `consume` fail with a
`ValueError` whose message reports the offending character and every
expected character — but not the state name, as the counterexample shows. -/
theorem strict_error_reports_char_and_expected (p : StreamingJsonParser) (c : Char)
    (expected : List Char) (hs : p.strict_mode = true) (hw : c ∉ WHITESPACE)
    (he : EXPECTED_CHARS p.state = some expected) (hc : c ∉ expected) :
    consumeChar p c = Except.error (PyErr.valueError (errMsg c expected))
    ∧ c ∈ errMsg c expected
    ∧ ∀ e ∈ expected, e ∈ errMsg c expected := by
  refine ⟨?_, ?_, ?_⟩
  · unfold consumeChar
    rw [if_neg (fun hand => hw hand.1), hs, if_pos rfl, he]
    dsimp only
    rw [if_neg hc]
  · simp [errMsg]
  · intro e hee
    simp [errMsg, mem_joinOr _ _ hee]

/-- Witness for amended C4: `f` in `EXPECT_KEY_OR_END` under strict mode. -/
theorem strict_error_reports_char_and_expected_witness :
    consumeChar
      { heap := [[]], stack := [], state := EXPECT_KEY_OR_END,
        current_key := [], strict_mode := true } 'f'
      = Except.error (PyErr.valueError (errMsg 'f' ['\"', '\x7d']))
    ∧ 'f' ∈ errMsg 'f' ['\"', '\x7d']
    ∧ ∀ e ∈ ['\"', '\x7d'], e ∈ errMsg 'f' ['\"', '\x7d'] :=
  strict_error_reports_char_and_expected
    { heap := [[]], stack := [], state := EXPECT_KEY_OR_END,
      current_key := [], strict_mode := true } 'f' ['\"', '\x7d']
    rfl (by decide) rfl (by decide)

/-- C4 as stated is false about the state name: on the claim's own example
`consume('{foo: "bar"}')` in strict mode, the parser raises on `f` in state
`EXPECT_KEY_OR_END`, and the raised message is exactly
`Got f but expected " or }` — it contains the offending character and the
expected set, but neither the spec's state name `ExpectKeyOrEnd` nor the
implementation's constant name `EXPECT_KEY_OR_END` occurs in it (and the
exception is a plain `ValueError`, not a dedicated `UnexpectedCharacter`
type carrying the state). -/
theorem strict_error_omits_state_name_cex :
    consume (initParser true) "\x7bfoo: \"bar\"\x7d".toList
      = Except.error (PyErr.valueError (errMsg 'f' ['\"', '\x7d']))
    ∧ errMsg 'f' ['\"', '\x7d'] = "Got f but expected \" or \x7d".toList
    ∧ containsSub (errMsg 'f' ['\"', '\x7d']) "ExpectKeyOrEnd".toList = false
    ∧ containsSub (errMsg 'f' ['\"', '\x7d']) "EXPECT_KEY_OR_END".toList = false
    ∧ containsSub (errMsg 'f' ['\"', '\x7d']) ['f'] = true :=
  ⟨by decide, by decide, by decide, by decide, by decide⟩
